import Mathlib

/-!
Verification of the server-sent-events stream reader of `BoynChan/go-openai`
(`stream_reader.go`, in two close source variants: one with an inline
`data: {"error":` detection branch, one without).

The embedding is shallow: the buffered line source (`bufio.Reader.ReadBytes`)
is modelled as the list of raw lines it will deliver, followed by a terminal
read error once exhausted; byte slices are lists of characters; the generic
JSON `Unmarshaler` is an abstract decoding function carried by the stream
state (one for the payload type `T`, one for the error envelope).
-/

namespace OpenAI

/-- Byte strings (Go `[]byte`) are modelled as lists of characters. -/
abbrev Str : Type := List Char

/-- Whitespace as trimmed by Go's `bytes.TrimSpace` (`unicode.IsSpace` on the
Latin-1 range: tab, newline, vertical tab, form feed, carriage return, space,
next line, no-break space). -/
def goIsSpace (c : Char) : Bool :=
  c = '\t' || c = '\n' || c = '\x0B' || c = '\x0C' || c = '\r' || c = ' ' ||
    c = '\x85' || c = '\xA0'

/-- Go `bytes.TrimSpace`: drop whitespace from both ends. -/
def trimSpace (l : Str) : Str :=
  ((l.dropWhile goIsSpace).reverse.dropWhile goIsSpace).reverse

/-- Go `bytes.TrimPrefix`: drop `pre` from the front of `l` when it is a
leading pattern of `l`, otherwise return `l` unchanged. -/
def trimPrefix (pre l : Str) : Str :=
  if pre.isPrefixOf l then l.drop pre.length else l

/-- The 6-byte marker `headerData = []byte("data: ")` of `stream_reader.go`. -/
def headerData : Str := ['d', 'a', 't', 'a', ':', ' ']

/-- The marker `errorPrefix` of the inline-detection variant: the bytes of
`data: \x7b"error":` (`\x7b` is the opening curly brace). -/
def errorPrefix : Str :=
  ['d', 'a', 't', 'a', ':', ' ', '\x7b', '\"', 'e', 'r', 'r', 'o', 'r', '\"', ':']

/-- The sentinel payload `[DONE]` compared against `string(noPrefixLine)`. -/
def donePayload : Str := ['[', 'D', 'O', 'N', 'E', ']']

/-- Errors a `Recv` call can surface. `eof` is `io.EOF`; `ioError` stands for
any other failure of the underlying read; `wrapped d` is
`fmt.Errorf("error, %w", respErr.Error)` carrying the server detail `d`;
`tooManyEmptyStreamMessages` is `ErrTooManyEmptyStreamMessages`;
`unmarshalFailure m` is the decoder's own error `m`. -/
inductive RecvError where
  | eof : RecvError
  | ioError (msg : String) : RecvError
  | wrapped (detail : String) : RecvError
  | tooManyEmptyStreamMessages : RecvError
  | unmarshalFailure (msg : String) : RecvError
deriving DecidableEq

/-- Modelled from the spec: the `ErrorResponse` envelope (declared outside the
given source files). Its `error` field abstracts the inner `APIError` detail
that `processLines` wraps via `fmt.Errorf("error, %w", respErr.Error)`. -/
structure ErrorResponse where
  error : String
deriving DecidableEq

/-- The stream session (`StreamReader[T]` of the source). The buffered reader
is modelled by `lines`, the raw lines it will successively deliver, and
`readErr`, the error every read reports once `lines` is exhausted (ordinarily
`io.EOF`). The generic `Unmarshaler` is split by target type: `Unmarshaler`
decodes a payload into `T` (or fails with a message) and `errUnmarshaler`
decodes accumulated bytes into a non-nil `ErrorResponse` (`none` both on a
decode failure and on a decode that leaves the pointer nil). -/
structure StreamReader (T : Type) where
  EmptyMessagesLimit : Nat
  isFinished : Bool
  lines : List Str
  readErr : RecvError
  ErrAccumulator : Str
  Unmarshaler : Str → Except String T
  errUnmarshaler : Str → Option ErrorResponse

/-- `StreamReader.unmarshalError` applied to accumulated bytes: nothing when
the accumulator is empty, otherwise the (nil-on-failure) envelope decode. -/
def unmarshalErrorBytes (uE : Str → Option ErrorResponse) (errBytes : Str) :
    Option ErrorResponse :=
  if errBytes.length = 0 then none else uE errBytes

/-- The loop of `processLines` in the inline-detection variant
(`stream_reader.go`). Arguments after the session are the mutable loop state:
the lines still unread, the accumulator contents, `emptyMessagesCount` and
`hasErrorPrefix`. The result carries the remaining lines, the final
accumulator, whether `isFinished` was set, and the Go pair
`(response, err)` as a value together with an optional error. -/
def processLinesLoop {T : Type} [Inhabited T] (s : StreamReader T) :
    List Str → Str → Nat → Bool → (List Str × Str × Bool) × T × Option RecvError
  | [], acc, _, _ =>
    match unmarshalErrorBytes s.errUnmarshaler acc with
    | some respErr => (([], acc, false), default, some (.wrapped respErr.error))
    | none => (([], acc, false), default, some s.readErr)
  | rawLine :: rest, acc, emptyMessagesCount, hasErrorPrefix =>
    if hasErrorPrefix then
      match unmarshalErrorBytes s.errUnmarshaler acc with
      | some respErr => ((rest, acc, false), default, some (.wrapped respErr.error))
      | none => ((rest, acc, false), default, none)
    else
      let noSpaceLine := trimSpace rawLine
      let hep := errorPrefix.isPrefixOf noSpaceLine
      if !(headerData.isPrefixOf noSpaceLine) || hep then
        let accLine := if hep then trimPrefix headerData noSpaceLine else noSpaceLine
        let acc' := acc ++ accLine
        if s.EmptyMessagesLimit < emptyMessagesCount + 1 then
          ((rest, acc', false), default, some .tooManyEmptyStreamMessages)
        else
          processLinesLoop s rest acc' (emptyMessagesCount + 1) hep
      else
        let noPrefixLine := trimPrefix headerData noSpaceLine
        if noPrefixLine = donePayload then
          ((rest, acc, true), default, some .eof)
        else
          match s.Unmarshaler noPrefixLine with
          | .error e => ((rest, acc, false), default, some (.unmarshalFailure e))
          | .ok response => ((rest, acc, false), response, none)

/-- `processLines` (inline-detection variant): run the loop from a fresh
`emptyMessagesCount` and `hasErrorPrefix`, then commit the mutated fields. -/
def processLines {T : Type} [Inhabited T] (s : StreamReader T) :
    StreamReader T × T × Option RecvError :=
  match processLinesLoop s s.lines s.ErrAccumulator 0 false with
  | ((lines', acc', fin), response, err) =>
    ({ s with
        lines := lines', ErrAccumulator := acc',
        isFinished := s.isFinished || fin }, response, err)

/-- `Recv` (inline-detection variant): the clean end-of-stream signal at once
when the session is finished, otherwise one round of `processLines`. -/
def Recv {T : Type} [Inhabited T] (s : StreamReader T) :
    StreamReader T × T × Option RecvError :=
  if s.isFinished then (s, default, some .eof) else processLines s

/-- The loop of `processLines` in the variant without inline error detection
(the unnamed source file): identical except that no `errorPrefix` check
exists, so nothing is stripped before accumulation and the read-failure check
never triggers on a successful read. -/
def processLinesLoopNoSniff {T : Type} [Inhabited T] (s : StreamReader T) :
    List Str → Str → Nat → (List Str × Str × Bool) × T × Option RecvError
  | [], acc, _ =>
    match unmarshalErrorBytes s.errUnmarshaler acc with
    | some respErr => (([], acc, false), default, some (.wrapped respErr.error))
    | none => (([], acc, false), default, some s.readErr)
  | rawLine :: rest, acc, emptyMessagesCount =>
    let noSpaceLine := trimSpace rawLine
    if !(headerData.isPrefixOf noSpaceLine) then
      let acc' := acc ++ noSpaceLine
      if s.EmptyMessagesLimit < emptyMessagesCount + 1 then
        ((rest, acc', false), default, some .tooManyEmptyStreamMessages)
      else
        processLinesLoopNoSniff s rest acc' (emptyMessagesCount + 1)
    else
      let noPrefixLine := trimPrefix headerData noSpaceLine
      if noPrefixLine = donePayload then
        ((rest, acc, true), default, some .eof)
      else
        match s.Unmarshaler noPrefixLine with
        | .error e => ((rest, acc, false), default, some (.unmarshalFailure e))
        | .ok response => ((rest, acc, false), response, none)

/-- `processLines` of the variant without inline error detection. -/
def processLinesNoSniff {T : Type} [Inhabited T] (s : StreamReader T) :
    StreamReader T × T × Option RecvError :=
  match processLinesLoopNoSniff s s.lines s.ErrAccumulator 0 with
  | ((lines', acc', fin), response, err) =>
    ({ s with
        lines := lines', ErrAccumulator := acc',
        isFinished := s.isFinished || fin }, response, err)

/-- `Recv` of the variant without inline error detection. -/
def RecvNoSniff {T : Type} [Inhabited T] (s : StreamReader T) :
    StreamReader T × T × Option RecvError :=
  if s.isFinished then (s, default, some .eof) else processLinesNoSniff s

/-- The session state after `n` successive `Recv` calls. -/
def recvIter {T : Type} [Inhabited T] : Nat → StreamReader T → StreamReader T
  | 0, s => s
  | n + 1, s => recvIter n (Recv s).1

/-- The `(response, err)` results of `n` successive `Recv` calls. -/
def recvSeq {T : Type} [Inhabited T] : Nat → StreamReader T → List (T × Option RecvError)
  | 0, _ => []
  | n + 1, s => (Recv s).2 :: recvSeq n (Recv s).1

/-- The session state after `n` successive `RecvNoSniff` calls. -/
def recvIterNoSniff {T : Type} [Inhabited T] : Nat → StreamReader T → StreamReader T
  | 0, s => s
  | n + 1, s => recvIterNoSniff n (RecvNoSniff s).1

/-- The `(response, err)` results of `n` successive `RecvNoSniff` calls. -/
def recvSeqNoSniff {T : Type} [Inhabited T] :
    Nat → StreamReader T → List (T × Option RecvError)
  | 0, _ => []
  | n + 1, s => (RecvNoSniff s).2 :: recvSeqNoSniff n (RecvNoSniff s).1

/-- A concrete session over `Nat` events used by the witnesses: the payload
decoder yields `7` on every payload and the envelope decoder never succeeds. -/
def sampleStream (lines : List Str) (limit : Nat) (fin : Bool) : StreamReader Nat :=
  { EmptyMessagesLimit := limit, isFinished := fin, lines := lines,
    readErr := .eof, ErrAccumulator := [],
    Unmarshaler := fun _ => .ok 7, errUnmarshaler := fun _ => none }

/-- A concrete session whose payload decoder always fails with `bad json`. -/
def sampleStreamBadJson (lines : List Str) (limit : Nat) : StreamReader Nat :=
  { EmptyMessagesLimit := limit, isFinished := false, lines := lines,
    readErr := .eof, ErrAccumulator := [],
    Unmarshaler := fun _ => .error "bad json", errUnmarshaler := fun _ => none }

/-- A concrete session whose envelope decoder succeeds on non-empty input and
whose underlying reader fails with a transport error once exhausted. -/
def sampleStreamEnvelope (lines : List Str) (acc : Str) : StreamReader Nat :=
  { EmptyMessagesLimit := 2, isFinished := false, lines := lines,
    readErr := .ioError "connection reset", ErrAccumulator := acc,
    Unmarshaler := fun _ => .ok 7,
    errUnmarshaler := fun b => if b = [] then none else some ⟨"bad request"⟩ }

/-- Every string that starts with the error marker also starts with the data
marker: the former extends the latter. -/
theorem headerData_isPrefixOf_of_errorPrefix {ns : Str}
    (h : errorPrefix.isPrefixOf ns = true) : headerData.isPrefixOf ns = true := by
  have h1 : errorPrefix <+: ns := List.isPrefixOf_iff_prefix.mp h
  have h2 : headerData <+: errorPrefix := by decide
  exact List.isPrefixOf_iff_prefix.mpr (h2.trans h1)

/-- A non-payload string cannot start with the error marker either. -/
theorem errorPrefix_isPrefixOf_eq_false {ns : Str}
    (h : headerData.isPrefixOf ns = false) : errorPrefix.isPrefixOf ns = false := by
  cases he : errorPrefix.isPrefixOf ns with
  | false => rfl
  | true => rw [headerData_isPrefixOf_of_errorPrefix he] at h; cases h

/-- Stripping a pattern from a string it heads leaves the tail. -/
theorem trimPrefix_append (pre t : Str) : trimPrefix pre (pre ++ t) = t := by
  have h : pre.isPrefixOf (pre ++ t) = true :=
    List.isPrefixOf_iff_prefix.mpr (List.prefix_append pre t)
  simp [trimPrefix, h]

/-- A string with a leading pattern splits as the pattern plus what
`trimPrefix` leaves. -/
theorem eq_append_trimPrefix {pre l : Str} (h : pre.isPrefixOf l = true) :
    l = pre ++ trimPrefix pre l := by
  obtain ⟨t, rfl⟩ := List.isPrefixOf_iff_prefix.mp h
  rw [trimPrefix_append]

/-- Concrete check: the error marker does not head the trimmed DONE line. -/
theorem errorPrefix_done_false :
    errorPrefix.isPrefixOf (headerData ++ donePayload) = false := by decide

/-- Concrete check: the data marker heads the trimmed DONE line. -/
theorem headerData_done_true :
    headerData.isPrefixOf (headerData ++ donePayload) = true := by decide

/-- Reading with no line left: the accumulated bytes are decoded; a non-nil
envelope is wrapped, otherwise the read error surfaces. -/
theorem loop_empty {T : Type} [Inhabited T] (s : StreamReader T) (acc : Str)
    (c : Nat) (hep : Bool) :
    processLinesLoop s [] acc c hep =
      (([], acc, false), default,
        some (match unmarshalErrorBytes s.errUnmarshaler acc with
          | some respErr => RecvError.wrapped respErr.error
          | none => s.readErr)) := by
  simp only [processLinesLoop]
  cases unmarshalErrorBytes s.errUnmarshaler acc <;> rfl

/-- With the error flag up, the next successful read still goes through the
decode-accumulator branch: the line is consumed but never classified. -/
theorem loop_errflag_step {T : Type} [Inhabited T] (s : StreamReader T)
    (raw : Str) (rest : List Str) (acc : Str) (c : Nat) :
    processLinesLoop s (raw :: rest) acc c true =
      ((rest, acc, false), default,
        Option.map (fun respErr => RecvError.wrapped respErr.error)
          (unmarshalErrorBytes s.errUnmarshaler acc)) := by
  simp only [processLinesLoop]
  cases unmarshalErrorBytes s.errUnmarshaler acc <;> rfl

/-- A line trimming to `data: [DONE]` finishes the stream with `io.EOF`. -/
theorem loop_done_step {T : Type} [Inhabited T] (s : StreamReader T)
    (raw : Str) (rest : List Str) (acc : Str) (c : Nat)
    (h : trimSpace raw = headerData ++ donePayload) :
    processLinesLoop s (raw :: rest) acc c false =
      ((rest, acc, true), default, some RecvError.eof) := by
  simp [processLinesLoop, h, errorPrefix_done_false, headerData_done_true,
    trimPrefix_append]

/-- A payload line that is not the sentinel and decodes to `v` yields `v`. -/
theorem loop_payload_ok_step {T : Type} [Inhabited T] (s : StreamReader T)
    (raw : Str) (rest : List Str) (acc : Str) (c : Nat) (v : T)
    (hpre : headerData.isPrefixOf (trimSpace raw) = true)
    (hmark : errorPrefix.isPrefixOf (trimSpace raw) = false)
    (hnd : trimPrefix headerData (trimSpace raw) ≠ donePayload)
    (hok : s.Unmarshaler (trimPrefix headerData (trimSpace raw)) = Except.ok v) :
    processLinesLoop s (raw :: rest) acc c false = ((rest, acc, false), v, none) := by
  simp [processLinesLoop, hpre, hmark, hnd, hok]

/-- A payload line that is not the sentinel and fails to decode surfaces the
decoder's error, leaving the accumulator alone. -/
theorem loop_payload_error_step {T : Type} [Inhabited T] (s : StreamReader T)
    (raw : Str) (rest : List Str) (acc : Str) (c : Nat) (e : String)
    (hpre : headerData.isPrefixOf (trimSpace raw) = true)
    (hmark : errorPrefix.isPrefixOf (trimSpace raw) = false)
    (hnd : trimPrefix headerData (trimSpace raw) ≠ donePayload)
    (herr : s.Unmarshaler (trimPrefix headerData (trimSpace raw)) = Except.error e) :
    processLinesLoop s (raw :: rest) acc c false =
      ((rest, acc, false), default, some (RecvError.unmarshalFailure e)) := by
  simp [processLinesLoop, hpre, hmark, hnd, herr]

/-- A non-payload line within the tolerance is appended (trimmed) to the
accumulator and the loop continues. -/
theorem loop_nonpayload_step {T : Type} [Inhabited T] (s : StreamReader T)
    (raw : Str) (rest : List Str) (acc : Str) (c : Nat)
    (hnp : headerData.isPrefixOf (trimSpace raw) = false)
    (hc : c + 1 ≤ s.EmptyMessagesLimit) :
    processLinesLoop s (raw :: rest) acc c false =
      processLinesLoop s rest (acc ++ trimSpace raw) (c + 1) false := by
  have hm := errorPrefix_isPrefixOf_eq_false hnp
  simp [processLinesLoop, hnp, hm, Nat.not_lt.mpr hc]

/-- A non-payload line beyond the tolerance triggers the dedicated error,
after the accumulator write. -/
theorem loop_nonpayload_tooMany {T : Type} [Inhabited T] (s : StreamReader T)
    (raw : Str) (rest : List Str) (acc : Str) (c : Nat)
    (hnp : headerData.isPrefixOf (trimSpace raw) = false)
    (hc : s.EmptyMessagesLimit < c + 1) :
    processLinesLoop s (raw :: rest) acc c false =
      ((rest, acc ++ trimSpace raw, false), default,
        some RecvError.tooManyEmptyStreamMessages) := by
  have hm := errorPrefix_isPrefixOf_eq_false hnp
  simp [processLinesLoop, hnp, hm, hc]

/-- An error-marked line raises the flag and is accumulated with the data
marker stripped; within the tolerance the loop then continues flagged. -/
theorem loop_errmark_step {T : Type} [Inhabited T] (s : StreamReader T)
    (raw : Str) (rest : List Str) (acc : Str) (c : Nat)
    (hmark : errorPrefix.isPrefixOf (trimSpace raw) = true)
    (hc : c + 1 ≤ s.EmptyMessagesLimit) :
    processLinesLoop s (raw :: rest) acc c false =
      processLinesLoop s rest (acc ++ trimPrefix headerData (trimSpace raw))
        (c + 1) true := by
  simp [processLinesLoop, hmark, Nat.not_lt.mpr hc]

/-- No-sniff variant of `loop_empty`. -/
theorem nsLoop_empty {T : Type} [Inhabited T] (s : StreamReader T) (acc : Str)
    (c : Nat) :
    processLinesLoopNoSniff s [] acc c =
      (([], acc, false), default,
        some (match unmarshalErrorBytes s.errUnmarshaler acc with
          | some respErr => RecvError.wrapped respErr.error
          | none => s.readErr)) := by
  simp only [processLinesLoopNoSniff]
  cases unmarshalErrorBytes s.errUnmarshaler acc <;> rfl

/-- No-sniff variant of `loop_done_step`. -/
theorem nsLoop_done_step {T : Type} [Inhabited T] (s : StreamReader T)
    (raw : Str) (rest : List Str) (acc : Str) (c : Nat)
    (h : trimSpace raw = headerData ++ donePayload) :
    processLinesLoopNoSniff s (raw :: rest) acc c =
      ((rest, acc, true), default, some RecvError.eof) := by
  simp [processLinesLoopNoSniff, h, headerData_done_true, trimPrefix_append]

/-- No-sniff variant of `loop_payload_ok_step`. -/
theorem nsLoop_payload_ok_step {T : Type} [Inhabited T] (s : StreamReader T)
    (raw : Str) (rest : List Str) (acc : Str) (c : Nat) (v : T)
    (hpre : headerData.isPrefixOf (trimSpace raw) = true)
    (hnd : trimPrefix headerData (trimSpace raw) ≠ donePayload)
    (hok : s.Unmarshaler (trimPrefix headerData (trimSpace raw)) = Except.ok v) :
    processLinesLoopNoSniff s (raw :: rest) acc c = ((rest, acc, false), v, none) := by
  simp [processLinesLoopNoSniff, hpre, hnd, hok]

/-- No-sniff variant of `loop_payload_error_step`. -/
theorem nsLoop_payload_error_step {T : Type} [Inhabited T] (s : StreamReader T)
    (raw : Str) (rest : List Str) (acc : Str) (c : Nat) (e : String)
    (hpre : headerData.isPrefixOf (trimSpace raw) = true)
    (hnd : trimPrefix headerData (trimSpace raw) ≠ donePayload)
    (herr : s.Unmarshaler (trimPrefix headerData (trimSpace raw)) = Except.error e) :
    processLinesLoopNoSniff s (raw :: rest) acc c =
      ((rest, acc, false), default, some (RecvError.unmarshalFailure e)) := by
  simp [processLinesLoopNoSniff, hpre, hnd, herr]

/-- No-sniff variant of `loop_nonpayload_step`. -/
theorem nsLoop_nonpayload_step {T : Type} [Inhabited T] (s : StreamReader T)
    (raw : Str) (rest : List Str) (acc : Str) (c : Nat)
    (hnp : headerData.isPrefixOf (trimSpace raw) = false)
    (hc : c + 1 ≤ s.EmptyMessagesLimit) :
    processLinesLoopNoSniff s (raw :: rest) acc c =
      processLinesLoopNoSniff s rest (acc ++ trimSpace raw) (c + 1) := by
  simp [processLinesLoopNoSniff, hnp, Nat.not_lt.mpr hc]

/-- No-sniff variant of `loop_nonpayload_tooMany`. -/
theorem nsLoop_nonpayload_tooMany {T : Type} [Inhabited T] (s : StreamReader T)
    (raw : Str) (rest : List Str) (acc : Str) (c : Nat)
    (hnp : headerData.isPrefixOf (trimSpace raw) = false)
    (hc : s.EmptyMessagesLimit < c + 1) :
    processLinesLoopNoSniff s (raw :: rest) acc c =
      ((rest, acc ++ trimSpace raw, false), default,
        some RecvError.tooManyEmptyStreamMessages) := by
  simp [processLinesLoopNoSniff, hnp, hc]

/-- Skipping a block of non-payload lines within the tolerance: each is
trimmed and appended to the accumulator, and the counter advances by one per
line (inline-detection variant). -/
theorem loop_skip {T : Type} [Inhabited T] (s : StreamReader T) (bad : List Str) :
    ∀ (rest : List Str) (acc : Str) (c : Nat),
    (∀ l ∈ bad, headerData.isPrefixOf (trimSpace l) = false) →
    c + bad.length ≤ s.EmptyMessagesLimit →
    processLinesLoop s (bad ++ rest) acc c false =
      processLinesLoop s rest (acc ++ (bad.map trimSpace).flatten) (c + bad.length)
        false := by
  induction bad with
  | nil => intro rest acc c _ _; simp
  | cons b bs ih =>
    intro rest acc c hnp hc
    have hb : headerData.isPrefixOf (trimSpace b) = false := hnp b (by simp)
    have hc1 : c + 1 ≤ s.EmptyMessagesLimit := by
      simp only [List.length_cons] at hc; omega
    rw [List.cons_append, loop_nonpayload_step s b (bs ++ rest) acc c hb hc1,
      ih rest (acc ++ trimSpace b) (c + 1) (fun l hl => hnp l (by simp [hl]))
        (by simp only [List.length_cons] at hc ⊢; omega)]
    have hlen : c + 1 + bs.length = c + (b :: bs).length := by
      simp only [List.length_cons]; omega
    rw [hlen]
    simp [List.append_assoc]

/-- Skipping a block of non-payload lines (no-sniff variant). -/
theorem nsLoop_skip {T : Type} [Inhabited T] (s : StreamReader T) (bad : List Str) :
    ∀ (rest : List Str) (acc : Str) (c : Nat),
    (∀ l ∈ bad, headerData.isPrefixOf (trimSpace l) = false) →
    c + bad.length ≤ s.EmptyMessagesLimit →
    processLinesLoopNoSniff s (bad ++ rest) acc c =
      processLinesLoopNoSniff s rest (acc ++ (bad.map trimSpace).flatten)
        (c + bad.length) := by
  induction bad with
  | nil => intro rest acc c _ _; simp
  | cons b bs ih =>
    intro rest acc c hnp hc
    have hb : headerData.isPrefixOf (trimSpace b) = false := hnp b (by simp)
    have hc1 : c + 1 ≤ s.EmptyMessagesLimit := by
      simp only [List.length_cons] at hc; omega
    rw [List.cons_append, nsLoop_nonpayload_step s b (bs ++ rest) acc c hb hc1,
      ih rest (acc ++ trimSpace b) (c + 1) (fun l hl => hnp l (by simp [hl]))
        (by simp only [List.length_cons] at hc ⊢; omega)]
    have hlen : c + 1 + bs.length = c + (b :: bs).length := by
      simp only [List.length_cons]; omega
    rw [hlen]
    simp [List.append_assoc]

/-- The loop only ever consumes lines: what remains is a suffix of the input
(inline-detection variant). -/
theorem loop_lines_suffix {T : Type} [Inhabited T] (s : StreamReader T) :
    ∀ (lines : List Str) (acc : Str) (c : Nat) (hep : Bool),
      (processLinesLoop s lines acc c hep).1.1 <:+ lines := by
  intro lines
  induction lines with
  | nil =>
    intro acc c hep
    rw [loop_empty]
  | cons b bs ih =>
    intro acc c hep
    cases hep with
    | true =>
      rw [loop_errflag_step]
      exact List.suffix_cons b bs
    | false =>
      simp only [processLinesLoop]
      split
      · split <;> exact List.suffix_cons b bs
      · split
        · split
          · exact List.suffix_cons b bs
          · exact (ih _ _ _).trans (List.suffix_cons b bs)
        · split
          · exact List.suffix_cons b bs
          · split <;> exact List.suffix_cons b bs

/-- The loop only ever appends to the accumulator (inline-detection
variant). -/
theorem loop_acc_extends {T : Type} [Inhabited T] (s : StreamReader T) :
    ∀ (lines : List Str) (acc : Str) (c : Nat) (hep : Bool),
      acc <+: (processLinesLoop s lines acc c hep).1.2.1 := by
  intro lines
  induction lines with
  | nil =>
    intro acc c hep
    rw [loop_empty]
  | cons b bs ih =>
    intro acc c hep
    cases hep with
    | true =>
      rw [loop_errflag_step]
    | false =>
      simp only [processLinesLoop]
      split
      · split <;> exact List.prefix_rfl
      · split
        · split
          · exact List.prefix_append acc _
          · exact (List.prefix_append acc _).trans (ih _ _ _)
        · split
          · exact List.prefix_rfl
          · split <;> exact List.prefix_rfl

/-- The loop only ever consumes lines (no-sniff variant). -/
theorem nsLoop_lines_suffix {T : Type} [Inhabited T] (s : StreamReader T) :
    ∀ (lines : List Str) (acc : Str) (c : Nat),
      (processLinesLoopNoSniff s lines acc c).1.1 <:+ lines := by
  intro lines
  induction lines with
  | nil =>
    intro acc c
    rw [nsLoop_empty]
  | cons b bs ih =>
    intro acc c
    simp only [processLinesLoopNoSniff]
    split
    · split
      · exact List.suffix_cons b bs
      · exact (ih _ _).trans (List.suffix_cons b bs)
    · split
      · exact List.suffix_cons b bs
      · split <;> exact List.suffix_cons b bs

/-- The loop only ever appends to the accumulator (no-sniff variant). -/
theorem nsLoop_acc_extends {T : Type} [Inhabited T] (s : StreamReader T) :
    ∀ (lines : List Str) (acc : Str) (c : Nat),
      acc <+: (processLinesLoopNoSniff s lines acc c).1.2.1 := by
  intro lines
  induction lines with
  | nil =>
    intro acc c
    rw [nsLoop_empty]
  | cons b bs ih =>
    intro acc c
    simp only [processLinesLoopNoSniff]
    split
    · split
      · exact List.prefix_append acc _
      · exact (List.prefix_append acc _).trans (ih _ _)
    · split
      · exact List.prefix_rfl
      · split <;> exact List.prefix_rfl

/-- When no remaining line carries the error marker, the two loop variants
agree step by step. -/
theorem loop_eq_noSniff {T : Type} [Inhabited T] (s : StreamReader T) :
    ∀ (lines : List Str) (acc : Str) (c : Nat),
    (∀ l ∈ lines, errorPrefix.isPrefixOf (trimSpace l) = false) →
    processLinesLoop s lines acc c false = processLinesLoopNoSniff s lines acc c := by
  intro lines
  induction lines with
  | nil =>
    intro acc c _
    rw [loop_empty, nsLoop_empty]
  | cons b bs ih =>
    intro acc c h
    have hb : errorPrefix.isPrefixOf (trimSpace b) = false := h b (by simp)
    cases hpre : headerData.isPrefixOf (trimSpace b) with
    | true =>
      simp only [processLinesLoop, processLinesLoopNoSniff, hb, hpre]
      norm_num
    | false =>
      by_cases hlim : s.EmptyMessagesLimit < c + 1
      · rw [loop_nonpayload_tooMany s b bs acc c hpre hlim,
          nsLoop_nonpayload_tooMany s b bs acc c hpre hlim]
      · have hc : c + 1 ≤ s.EmptyMessagesLimit := Nat.not_lt.mp hlim
        rw [loop_nonpayload_step s b bs acc c hpre hc,
          nsLoop_nonpayload_step s b bs acc c hpre hc]
        exact ih (acc ++ trimSpace b) (c + 1) (fun l hl => h l (by simp [hl]))

/-- A finished session is a fixed point: every further call hands back the
same state and the clean end-of-stream result (inline-detection variant). -/
theorem recvIter_finished {T : Type} [Inhabited T] (s : StreamReader T)
    (h : s.isFinished = true) :
    ∀ n, recvIter n s = s ∧
      recvSeq n s = List.replicate n ((default : T), some RecvError.eof) := by
  intro n
  induction n with
  | zero => exact ⟨rfl, rfl⟩
  | succ n ihn =>
    have hr : Recv s = (s, default, some RecvError.eof) := by simp [Recv, h]
    refine ⟨?_, ?_⟩
    · show recvIter n (Recv s).1 = s
      rw [hr]
      exact ihn.1
    · show (Recv s).2 :: recvSeq n (Recv s).1 = _
      rw [hr, List.replicate_succ]
      exact congrArg _ ihn.2

/-- `processLines` written with the loop's result projected into the session
fields (inline-detection variant). -/
theorem processLines_eq {T : Type} [Inhabited T] (s : StreamReader T) :
    processLines s =
      ({ s with
          lines := (processLinesLoop s s.lines s.ErrAccumulator 0 false).1.1,
          ErrAccumulator := (processLinesLoop s s.lines s.ErrAccumulator 0 false).1.2.1,
          isFinished :=
            s.isFinished || (processLinesLoop s s.lines s.ErrAccumulator 0 false).1.2.2 },
        (processLinesLoop s s.lines s.ErrAccumulator 0 false).2) := by
  rcases h : processLinesLoop s s.lines s.ErrAccumulator 0 false with ⟨⟨a, b, c⟩, d, e⟩
  simp [processLines, h]

/-- `processLinesNoSniff` written with the loop's result projected into the
session fields. -/
theorem processLinesNoSniff_eq {T : Type} [Inhabited T] (s : StreamReader T) :
    processLinesNoSniff s =
      ({ s with
          lines := (processLinesLoopNoSniff s s.lines s.ErrAccumulator 0).1.1,
          ErrAccumulator := (processLinesLoopNoSniff s s.lines s.ErrAccumulator 0).1.2.1,
          isFinished :=
            s.isFinished || (processLinesLoopNoSniff s s.lines s.ErrAccumulator 0).1.2.2 },
        (processLinesLoopNoSniff s s.lines s.ErrAccumulator 0).2) := by
  rcases h : processLinesLoopNoSniff s s.lines s.ErrAccumulator 0 with ⟨⟨a, b, c⟩, d, e⟩
  simp [processLinesNoSniff, h]

/-- An unfinished session's `Recv` is one round of line processing. -/
theorem recv_not_finished {T : Type} [Inhabited T] (s : StreamReader T)
    (h : s.isFinished = false) : Recv s = processLines s := by
  simp [Recv, h]

/-- An unfinished session's `RecvNoSniff` is one round of line processing. -/
theorem recvNoSniff_not_finished {T : Type} [Inhabited T] (s : StreamReader T)
    (h : s.isFinished = false) : RecvNoSniff s = processLinesNoSniff s := by
  simp [RecvNoSniff, h]

/-- C1: a finished session answers `io.EOF` with the zero value, untouched. -/
theorem recv_after_finished_eof {T : Type} [Inhabited T] (s : StreamReader T)
    (h : s.isFinished = true) :
    Recv s = (s, default, some RecvError.eof) := by
  simp [Recv, h]

theorem recv_after_finished_eof_wit :
    Recv (sampleStream [] 0 true) = (sampleStream [] 0 true, default, some RecvError.eof) :=
  recv_after_finished_eof _ rfl

/-- The result pair of an unfinished `Recv` is the loop's result pair. -/
theorem recv_snd {T : Type} [Inhabited T] (s : StreamReader T)
    (h : s.isFinished = false) :
    (Recv s).2 = (processLinesLoop s s.lines s.ErrAccumulator 0 false).2 := by
  rw [recv_not_finished s h, processLines_eq]

/-- The result pair of an unfinished `RecvNoSniff` is the loop's result pair. -/
theorem recvNoSniff_snd {T : Type} [Inhabited T] (s : StreamReader T)
    (h : s.isFinished = false) :
    (RecvNoSniff s).2 = (processLinesLoopNoSniff s s.lines s.ErrAccumulator 0).2 := by
  rw [recvNoSniff_not_finished s h, processLinesNoSniff_eq]

/-- C2: when the read fails, the accumulated bytes are decoded; a successful
decode to a non-empty detail wins over the read failure, anything else lets
the original read error through unchanged. -/
theorem recv_read_failure_error_priority {T : Type} [Inhabited T]
    (s : StreamReader T) (hfin : s.isFinished = false) (hl : s.lines = []) :
    (∀ respErr : ErrorResponse, s.ErrAccumulator ≠ [] →
        s.errUnmarshaler s.ErrAccumulator = some respErr → respErr.error ≠ "" →
        Recv s = (s, default, some (RecvError.wrapped respErr.error))) ∧
    (s.ErrAccumulator = [] ∨ s.errUnmarshaler s.ErrAccumulator = none →
        Recv s = (s, default, some s.readErr)) := by
  constructor
  · intro respErr hacc hsome _
    have hu : unmarshalErrorBytes s.errUnmarshaler s.ErrAccumulator = some respErr := by
      rw [unmarshalErrorBytes, if_neg, hsome]
      simpa using hacc
    have hloop : processLinesLoop s s.lines s.ErrAccumulator 0 false
        = (([], s.ErrAccumulator, false), default,
            some (RecvError.wrapped respErr.error)) := by
      rw [hl, loop_empty, hu]
    rw [recv_not_finished s hfin, processLines_eq, hloop]
    obtain ⟨lim, fin, ls, re, acc, uT, uE⟩ := s
    simp_all
  · intro hnone
    have hu : unmarshalErrorBytes s.errUnmarshaler s.ErrAccumulator = none := by
      rcases hnone with h | h
      · rw [unmarshalErrorBytes, if_pos]; simp [h]
      · rw [unmarshalErrorBytes]; split
        · rfl
        · exact h
    have hloop : processLinesLoop s s.lines s.ErrAccumulator 0 false
        = (([], s.ErrAccumulator, false), default, some s.readErr) := by
      rw [hl, loop_empty, hu]
    rw [recv_not_finished s hfin, processLines_eq, hloop]
    obtain ⟨lim, fin, ls, re, acc, uT, uE⟩ := s
    simp_all

theorem recv_read_failure_error_priority_wit :
    Recv (sampleStreamEnvelope [] ['x']) =
      (sampleStreamEnvelope [] ['x'], default,
        some (RecvError.wrapped "bad request")) :=
  (recv_read_failure_error_priority (sampleStreamEnvelope [] ['x']) rfl rfl).1
    ⟨"bad request"⟩ (by decide) rfl (by decide)

/-- C3: a line whose trimmed form is the data marker followed by exactly the
`[DONE]` sentinel finishes the session and yields `io.EOF`, in both source
variants. -/
theorem recv_done_marks_finished {T : Type} [Inhabited T] (s : StreamReader T)
    (l : Str) (rest : List Str) (hfin : s.isFinished = false)
    (hl : s.lines = l :: rest)
    (hpre : headerData.isPrefixOf (trimSpace l) = true)
    (hdone : trimPrefix headerData (trimSpace l) = donePayload) :
    Recv s = ({ s with lines := rest, isFinished := true }, default,
        some RecvError.eof) ∧
    RecvNoSniff s = ({ s with lines := rest, isFinished := true }, default,
        some RecvError.eof) := by
  have hts : trimSpace l = headerData ++ donePayload := by
    rw [← hdone]
    exact eq_append_trimPrefix hpre
  have hA : processLinesLoop s s.lines s.ErrAccumulator 0 false
      = ((rest, s.ErrAccumulator, true), default, some RecvError.eof) := by
    rw [hl, loop_done_step s l rest s.ErrAccumulator 0 hts]
  have hB : processLinesLoopNoSniff s s.lines s.ErrAccumulator 0
      = ((rest, s.ErrAccumulator, true), default, some RecvError.eof) := by
    rw [hl, nsLoop_done_step s l rest s.ErrAccumulator 0 hts]
  rw [recv_not_finished s hfin, recvNoSniff_not_finished s hfin, processLines_eq,
    processLinesNoSniff_eq, hA, hB]
  obtain ⟨lim, fin, ls, re, acc, uT, uE⟩ := s
  simp_all

theorem recv_done_marks_finished_wit :
    Recv (sampleStream [headerData ++ donePayload ++ ['\n']] 2 false) =
      ({ sampleStream [headerData ++ donePayload ++ ['\n']] 2 false with
          lines := [], isFinished := true }, default, some RecvError.eof) ∧
    RecvNoSniff (sampleStream [headerData ++ donePayload ++ ['\n']] 2 false) =
      ({ sampleStream [headerData ++ donePayload ++ ['\n']] 2 false with
          lines := [], isFinished := true }, default, some RecvError.eof) :=
  recv_done_marks_finished _ (headerData ++ donePayload ++ ['\n']) [] rfl rfl
    (by decide) (by decide)

/-- C4: in the inline-detection variant, an error-marked line raises the flag
for this stream, is accumulated with the data marker stripped, and the next
iteration (after one more read) resolves through the error-decode path,
never classifying the newly read line. -/
theorem recv_inline_error_detection {T : Type} [Inhabited T]
    (s : StreamReader T) (l r : Str) (rest : List Str)
    (hfin : s.isFinished = false) (hl : s.lines = l :: r :: rest)
    (hmark : errorPrefix.isPrefixOf (trimSpace l) = true)
    (hlim : 1 ≤ s.EmptyMessagesLimit) :
    Recv s =
      ({ s with
          lines := rest,
          ErrAccumulator :=
            s.ErrAccumulator ++ trimPrefix headerData (trimSpace l) },
        default,
        Option.map (fun respErr => RecvError.wrapped respErr.error)
          (unmarshalErrorBytes s.errUnmarshaler
            (s.ErrAccumulator ++ trimPrefix headerData (trimSpace l)))) := by
  have hloop : processLinesLoop s s.lines s.ErrAccumulator 0 false
      = ((rest, s.ErrAccumulator ++ trimPrefix headerData (trimSpace l), false),
          default,
          Option.map (fun respErr => RecvError.wrapped respErr.error)
            (unmarshalErrorBytes s.errUnmarshaler
              (s.ErrAccumulator ++ trimPrefix headerData (trimSpace l)))) := by
    rw [hl, loop_errmark_step s l (r :: rest) s.ErrAccumulator 0 hmark hlim,
      loop_errflag_step]
  rw [recv_not_finished s hfin, processLines_eq, hloop]
  obtain ⟨lim, fin, ls, re, acc, uT, uE⟩ := s
  simp_all

theorem recv_inline_error_detection_wit :
    Recv (sampleStream [errorPrefix ++ ['1', '\n'],
        headerData ++ donePayload ++ ['\n']] 2 false) =
      ({ sampleStream [errorPrefix ++ ['1', '\n'],
            headerData ++ donePayload ++ ['\n']] 2 false with
          lines := [],
          ErrAccumulator :=
            trimPrefix headerData (trimSpace (errorPrefix ++ ['1', '\n'])) },
        default, none) :=
  recv_inline_error_detection _ (errorPrefix ++ ['1', '\n'])
    (headerData ++ donePayload ++ ['\n']) [] rfl rfl (by decide) (by decide)

/-- C5: over a stream of non-payload lines closed by the DONE sentinel, a
`Recv` call fails with `ErrTooManyEmptyStreamMessages` exactly when the count
of non-payload lines passes the configured tolerance — each such line
increments the counter by one — in both source variants. -/
theorem recv_empty_messages_limit {T : Type} [Inhabited T] (s : StreamReader T)
    (bad : List Str) (dl : Str) (hfin : s.isFinished = false)
    (hl : s.lines = bad ++ [dl])
    (hnp : ∀ l ∈ bad, headerData.isPrefixOf (trimSpace l) = false)
    (hdl : trimSpace dl = headerData ++ donePayload) :
    ((Recv s).2.2 = some RecvError.tooManyEmptyStreamMessages ↔
      s.EmptyMessagesLimit < bad.length) ∧
    ((RecvNoSniff s).2.2 = some RecvError.tooManyEmptyStreamMessages ↔
      s.EmptyMessagesLimit < bad.length) := by
  rw [recv_snd s hfin, recvNoSniff_snd s hfin]
  by_cases hcase : s.EmptyMessagesLimit < bad.length
  · obtain ⟨b', bs', hdrop⟩ :
        ∃ b' bs', bad.drop s.EmptyMessagesLimit = b' :: bs' := by
      cases hd : bad.drop s.EmptyMessagesLimit with
      | nil =>
        rw [List.drop_eq_nil_iff] at hd
        omega
      | cons x xs => exact ⟨x, xs, rfl⟩
    have hlines : s.lines =
        bad.take s.EmptyMessagesLimit ++ (b' :: (bs' ++ [dl])) := by
      rw [hl]
      conv_lhs => rw [← List.take_append_drop s.EmptyMessagesLimit bad, hdrop]
      simp [List.append_assoc]
    have htake_len : (bad.take s.EmptyMessagesLimit).length =
        s.EmptyMessagesLimit := by
      simp [List.length_take]
      omega
    have hnp_take : ∀ x ∈ bad.take s.EmptyMessagesLimit,
        headerData.isPrefixOf (trimSpace x) = false :=
      fun x hx => hnp x (List.mem_of_mem_take hx)
    have hb' : headerData.isPrefixOf (trimSpace b') = false := by
      apply hnp
      exact List.mem_of_mem_drop (by rw [hdrop]; exact List.mem_cons_self b' bs')
    have hA : (processLinesLoop s s.lines s.ErrAccumulator 0 false).2.2
        = some RecvError.tooManyEmptyStreamMessages := by
      rw [hlines, loop_skip s (bad.take s.EmptyMessagesLimit) _ _ 0 hnp_take
          (by rw [htake_len]; omega), htake_len,
        loop_nonpayload_tooMany s b' (bs' ++ [dl]) _ _ hb' (by omega)]
    have hB : (processLinesLoopNoSniff s s.lines s.ErrAccumulator 0).2.2
        = some RecvError.tooManyEmptyStreamMessages := by
      rw [hlines, nsLoop_skip s (bad.take s.EmptyMessagesLimit) _ _ 0 hnp_take
          (by rw [htake_len]; omega), htake_len,
        nsLoop_nonpayload_tooMany s b' (bs' ++ [dl]) _ _ hb' (by omega)]
    simp [hA, hB, hcase]
  · have hk : bad.length ≤ s.EmptyMessagesLimit := Nat.not_lt.mp hcase
    have hA : (processLinesLoop s s.lines s.ErrAccumulator 0 false).2.2
        = some RecvError.eof := by
      rw [hl, loop_skip s bad [dl] _ 0 hnp (by omega),
        loop_done_step s dl [] _ _ hdl]
    have hB : (processLinesLoopNoSniff s s.lines s.ErrAccumulator 0).2.2
        = some RecvError.eof := by
      rw [hl, nsLoop_skip s bad [dl] _ 0 hnp (by omega),
        nsLoop_done_step s dl [] _ _ hdl]
    simp [hA, hB, hcase]

theorem recv_empty_messages_limit_wit :
    ((Recv (sampleStream [['\n'], ['\n'], ['\n'],
        headerData ++ donePayload ++ ['\n']] 2 false)).2.2 =
          some RecvError.tooManyEmptyStreamMessages ↔ 2 < 3) ∧
    ((RecvNoSniff (sampleStream [['\n'], ['\n'], ['\n'],
        headerData ++ donePayload ++ ['\n']] 2 false)).2.2 =
          some RecvError.tooManyEmptyStreamMessages ↔ 2 < 3) :=
  recv_empty_messages_limit _ [['\n'], ['\n'], ['\n']]
    (headerData ++ donePayload ++ ['\n']) rfl rfl (by decide) (by decide)

/-- One `Recv` call never reads ahead of what it consumes: the remaining
lines are a suffix of the previous ones. -/
theorem recv_lines_suffix {T : Type} [Inhabited T] (s : StreamReader T) :
    (Recv s).1.lines <:+ s.lines := by
  by_cases hfin : s.isFinished = true
  · simp [Recv, hfin]
  · rw [recv_not_finished s (eq_false_of_ne_true hfin), processLines_eq]
    simpa using loop_lines_suffix s s.lines s.ErrAccumulator 0 false

/-- On marker-free input the two variants make the same single call. -/
theorem recv_eq_noSniff {T : Type} [Inhabited T] (s : StreamReader T)
    (h : ∀ l ∈ s.lines, errorPrefix.isPrefixOf (trimSpace l) = false) :
    Recv s = RecvNoSniff s := by
  by_cases hfin : s.isFinished = true
  · simp [Recv, RecvNoSniff, hfin]
  · rw [recv_not_finished s (eq_false_of_ne_true hfin),
      recvNoSniff_not_finished s (eq_false_of_ne_true hfin), processLines_eq,
      processLinesNoSniff_eq, loop_eq_noSniff s s.lines s.ErrAccumulator 0 h]

/-- On marker-free input the two variants stay in lockstep: same results and
same states after any number of calls. -/
theorem recvIter_eq_noSniff {T : Type} [Inhabited T] :
    ∀ (n : Nat) (s : StreamReader T),
    (∀ l ∈ s.lines, errorPrefix.isPrefixOf (trimSpace l) = false) →
    recvSeq n s = recvSeqNoSniff n s ∧ recvIter n s = recvIterNoSniff n s := by
  intro n
  induction n with
  | zero => exact fun s _ => ⟨rfl, rfl⟩
  | succ n ihn =>
    intro s h
    have h1 : Recv s = RecvNoSniff s := recv_eq_noSniff s h
    have h2 : ∀ l ∈ (Recv s).1.lines, errorPrefix.isPrefixOf (trimSpace l) = false :=
      fun l hl => h l ((recv_lines_suffix s).subset hl)
    obtain ⟨hseq, hiter⟩ := ihn (Recv s).1 h2
    constructor
    · show (Recv s).2 :: recvSeq n (Recv s).1
        = (RecvNoSniff s).2 :: recvSeqNoSniff n (RecvNoSniff s).1
      rw [← h1, hseq]
    · show recvIter n (Recv s).1 = recvIterNoSniff n (RecvNoSniff s).1
      rw [← h1, hiter]

/-- C6: on any input in which no trimmed line begins with the error marker,
the two source variants return identical result sequences over successive
calls and leave identical accumulator contents. -/
theorem recv_variants_agree {T : Type} [Inhabited T] (s : StreamReader T)
    (h : ∀ l ∈ s.lines, errorPrefix.isPrefixOf (trimSpace l) = false) (n : Nat) :
    recvSeq n s = recvSeqNoSniff n s ∧
    (recvIter n s).ErrAccumulator = (recvIterNoSniff n s).ErrAccumulator := by
  obtain ⟨h1, h2⟩ := recvIter_eq_noSniff n s h
  exact ⟨h1, by rw [h2]⟩

theorem recv_variants_agree_wit :
    recvSeq 4 (sampleStream [['\n'], headerData ++ ['x', '\n'],
        headerData ++ donePayload ++ ['\n']] 2 false) =
      recvSeqNoSniff 4 (sampleStream [['\n'], headerData ++ ['x', '\n'],
        headerData ++ donePayload ++ ['\n']] 2 false) ∧
    (recvIter 4 (sampleStream [['\n'], headerData ++ ['x', '\n'],
        headerData ++ donePayload ++ ['\n']] 2 false)).ErrAccumulator =
      (recvIterNoSniff 4 (sampleStream [['\n'], headerData ++ ['x', '\n'],
        headerData ++ donePayload ++ ['\n']] 2 false)).ErrAccumulator :=
  recv_variants_agree _ (by decide) 4

/-- One `Recv` call only ever appends to the accumulator. -/
theorem recv_acc_extends {T : Type} [Inhabited T] (s : StreamReader T) :
    s.ErrAccumulator <+: (Recv s).1.ErrAccumulator := by
  by_cases hfin : s.isFinished = true
  · simp [Recv, hfin]
  · rw [recv_not_finished s (eq_false_of_ne_true hfin), processLines_eq]
    simpa using loop_acc_extends s s.lines s.ErrAccumulator 0 false

/-- One `RecvNoSniff` call only ever appends to the accumulator. -/
theorem recvNoSniff_acc_extends {T : Type} [Inhabited T] (s : StreamReader T) :
    s.ErrAccumulator <+: (RecvNoSniff s).1.ErrAccumulator := by
  by_cases hfin : s.isFinished = true
  · simp [RecvNoSniff, hfin]
  · rw [recvNoSniff_not_finished s (eq_false_of_ne_true hfin),
      processLinesNoSniff_eq]
    simpa using nsLoop_acc_extends s s.lines s.ErrAccumulator 0

/-- Across any number of calls the accumulator is never reset. -/
theorem recvIter_acc_extends {T : Type} [Inhabited T] :
    ∀ (n : Nat) (s : StreamReader T),
      s.ErrAccumulator <+: (recvIter n s).ErrAccumulator := by
  intro n
  induction n with
  | zero => exact fun s => List.prefix_rfl
  | succ n ihn =>
    intro s
    exact (recv_acc_extends s).trans (ihn (Recv s).1)

/-- Across any number of no-sniff calls the accumulator is never reset. -/
theorem recvIterNoSniff_acc_extends {T : Type} [Inhabited T] :
    ∀ (n : Nat) (s : StreamReader T),
      s.ErrAccumulator <+: (recvIterNoSniff n s).ErrAccumulator := by
  intro n
  induction n with
  | zero => exact fun s => List.prefix_rfl
  | succ n ihn =>
    intro s
    exact (recvNoSniff_acc_extends s).trans (ihn (RecvNoSniff s).1)

/-- C8: a non-payload line is appended (trimmed) to the error accumulator
rather than discarded, after which the loop keeps reading; and the
accumulator only ever grows — never reset across the session's successive
calls — in both source variants. -/
theorem recv_accumulator_monotone {T : Type} [Inhabited T] (s : StreamReader T)
    (l : Str) (rest : List Str) (acc : Str) (c : Nat)
    (hnp : headerData.isPrefixOf (trimSpace l) = false)
    (hc : c + 1 ≤ s.EmptyMessagesLimit) :
    processLinesLoop s (l :: rest) acc c false =
      processLinesLoop s rest (acc ++ trimSpace l) (c + 1) false ∧
    processLinesLoopNoSniff s (l :: rest) acc c =
      processLinesLoopNoSniff s rest (acc ++ trimSpace l) (c + 1) ∧
    (∀ n, s.ErrAccumulator <+: (recvIter n s).ErrAccumulator) ∧
    (∀ n, s.ErrAccumulator <+: (recvIterNoSniff n s).ErrAccumulator) :=
  ⟨loop_nonpayload_step s l rest acc c hnp hc,
    nsLoop_nonpayload_step s l rest acc c hnp hc,
    fun n => recvIter_acc_extends n s,
    fun n => recvIterNoSniff_acc_extends n s⟩

theorem recv_accumulator_monotone_wit :
    processLinesLoop (sampleStream [[':', 'p', '\n']] 2 false)
        [[':', 'p', '\n']] [] 0 false =
      processLinesLoop (sampleStream [[':', 'p', '\n']] 2 false) []
        (trimSpace [[':', 'p', '\n']].head!) 1 false ∧
    processLinesLoopNoSniff (sampleStream [[':', 'p', '\n']] 2 false)
        [[':', 'p', '\n']] [] 0 =
      processLinesLoopNoSniff (sampleStream [[':', 'p', '\n']] 2 false) []
        (trimSpace [[':', 'p', '\n']].head!) 1 ∧
    (sampleStream [[':', 'p', '\n']] 2 false).ErrAccumulator <+:
      (recvIter 2 (sampleStream [[':', 'p', '\n']] 2 false)).ErrAccumulator ∧
    (sampleStream [[':', 'p', '\n']] 2 false).ErrAccumulator <+:
      (recvIterNoSniff 2 (sampleStream [[':', 'p', '\n']] 2 false)).ErrAccumulator := by
  obtain ⟨h1, h2, h3, h4⟩ :=
    recv_accumulator_monotone (sampleStream [[':', 'p', '\n']] 2 false)
      [':', 'p', '\n'] [] [] 0 (by decide) (by decide)
  exact ⟨h1, h2, h3 2, h4 2⟩

/-- C10: in the inline-detection variant, when an error-marked line raises
the flag, the next read succeeds, and the accumulated bytes then fail to
decode into an envelope, the call returns the zero value with no error at
all — a success carrying no decoded event. -/
theorem recv_error_flag_silent_success {T : Type} [Inhabited T]
    (s : StreamReader T) (l r : Str) (rest : List Str)
    (hfin : s.isFinished = false) (hl : s.lines = l :: r :: rest)
    (hmark : errorPrefix.isPrefixOf (trimSpace l) = true)
    (hlim : 1 ≤ s.EmptyMessagesLimit)
    (hacc : s.ErrAccumulator ++ trimPrefix headerData (trimSpace l) ≠ [])
    (hdec : s.errUnmarshaler
        (s.ErrAccumulator ++ trimPrefix headerData (trimSpace l)) = none) :
    Recv s =
      ({ s with
          lines := rest,
          ErrAccumulator :=
            s.ErrAccumulator ++ trimPrefix headerData (trimSpace l) },
        default, none) := by
  have hu : unmarshalErrorBytes s.errUnmarshaler
      (s.ErrAccumulator ++ trimPrefix headerData (trimSpace l)) = none := by
    rw [unmarshalErrorBytes]
    split
    · rfl
    · exact hdec
  have hloop : processLinesLoop s s.lines s.ErrAccumulator 0 false
      = ((rest, s.ErrAccumulator ++ trimPrefix headerData (trimSpace l), false),
          default, none) := by
    rw [hl, loop_errmark_step s l (r :: rest) s.ErrAccumulator 0 hmark hlim,
      loop_errflag_step, hu]
    rfl
  rw [recv_not_finished s hfin, processLines_eq, hloop]
  obtain ⟨lim, fin, ls, re, acc, uT, uE⟩ := s
  simp_all

theorem recv_error_flag_silent_success_wit :
    Recv (sampleStream [errorPrefix ++ ['1', '\n'], [':', 'p', '\n']] 2 false) =
      ({ sampleStream [errorPrefix ++ ['1', '\n'], [':', 'p', '\n']] 2 false with
          lines := [],
          ErrAccumulator :=
            trimPrefix headerData (trimSpace (errorPrefix ++ ['1', '\n'])) },
        default, none) :=
  recv_error_flag_silent_success _ (errorPrefix ++ ['1', '\n']) [':', 'p', '\n']
    [] rfl rfl (by decide) (by decide) (by decide) rfl

/-- C9 counterexample: the line trims to `data: \x7b"error":x`, carries the
data marker, is not the sentinel, and its payload fails to decode — yet in
the inline-detection variant `Recv` does not return the decoder's error, and
it does append to the accumulator: the error marker diverts the line before
the payload decoder ever runs. -/
theorem recv_decode_error_counterexample :
    headerData.isPrefixOf
        (trimSpace (errorPrefix ++ ['x', '\n'])) = true ∧
    trimPrefix headerData (trimSpace (errorPrefix ++ ['x', '\n'])) ≠ donePayload ∧
    (sampleStreamBadJson [errorPrefix ++ ['x', '\n']] 2).Unmarshaler
        (trimPrefix headerData (trimSpace (errorPrefix ++ ['x', '\n']))) =
      Except.error "bad json" ∧
    (Recv (sampleStreamBadJson [errorPrefix ++ ['x', '\n']] 2)).2 ≠
      ((default : Nat), some (RecvError.unmarshalFailure "bad json")) ∧
    (Recv (sampleStreamBadJson [errorPrefix ++ ['x', '\n']] 2)).1.ErrAccumulator ≠
      (sampleStreamBadJson [errorPrefix ++ ['x', '\n']] 2).ErrAccumulator :=
  ⟨by decide, by decide, rfl, by decide, by decide⟩

/-- C9 amended: a payload-marked line that does not additionally begin with
the error marker, is not the sentinel, and fails to decode makes `Recv`
return the decoder's error directly, leaving the accumulator untouched; the
no-sniff variant needs no marker proviso but satisfies the same statement. -/
theorem recv_decode_error_amended {T : Type} [Inhabited T] (s : StreamReader T)
    (l : Str) (rest : List Str) (e : String) (hfin : s.isFinished = false)
    (hl : s.lines = l :: rest)
    (hpre : headerData.isPrefixOf (trimSpace l) = true)
    (hmark : errorPrefix.isPrefixOf (trimSpace l) = false)
    (hnd : trimPrefix headerData (trimSpace l) ≠ donePayload)
    (hdec : s.Unmarshaler (trimPrefix headerData (trimSpace l)) = Except.error e) :
    Recv s = ({ s with lines := rest }, default,
        some (RecvError.unmarshalFailure e)) ∧
    RecvNoSniff s = ({ s with lines := rest }, default,
        some (RecvError.unmarshalFailure e)) := by
  have hA : processLinesLoop s s.lines s.ErrAccumulator 0 false
      = ((rest, s.ErrAccumulator, false), default,
          some (RecvError.unmarshalFailure e)) := by
    rw [hl, loop_payload_error_step s l rest s.ErrAccumulator 0 e hpre hmark hnd hdec]
  have hB : processLinesLoopNoSniff s s.lines s.ErrAccumulator 0
      = ((rest, s.ErrAccumulator, false), default,
          some (RecvError.unmarshalFailure e)) := by
    rw [hl, nsLoop_payload_error_step s l rest s.ErrAccumulator 0 e hpre hnd hdec]
  rw [recv_not_finished s hfin, recvNoSniff_not_finished s hfin, processLines_eq,
    processLinesNoSniff_eq, hA, hB]
  obtain ⟨lim, fin, ls, re, acc, uT, uE⟩ := s
  simp_all

theorem recv_decode_error_amended_wit :
    Recv (sampleStreamBadJson [headerData ++ ['x', '\n']] 2) =
      ({ sampleStreamBadJson [headerData ++ ['x', '\n']] 2 with lines := [] },
        default, some (RecvError.unmarshalFailure "bad json")) ∧
    RecvNoSniff (sampleStreamBadJson [headerData ++ ['x', '\n']] 2) =
      ({ sampleStreamBadJson [headerData ++ ['x', '\n']] 2 with lines := [] },
        default, some (RecvError.unmarshalFailure "bad json")) :=
  recv_decode_error_amended _ (headerData ++ ['x', '\n']) [] "bad json" rfl rfl
    (by decide) (by decide) (by decide) rfl

/-- One `Recv` call on an unfinished session headed by the DONE line:
finish and signal `io.EOF`. -/
theorem recv_done_step {T : Type} [Inhabited T] (s : StreamReader T) (dl : Str)
    (rest : List Str) (hfin : s.isFinished = false) (hl : s.lines = dl :: rest)
    (hdl : trimSpace dl = headerData ++ donePayload) :
    Recv s = ({ s with lines := rest, isFinished := true }, default,
      some RecvError.eof) := by
  have hA : processLinesLoop s s.lines s.ErrAccumulator 0 false
      = ((rest, s.ErrAccumulator, true), default, some RecvError.eof) := by
    rw [hl, loop_done_step s dl rest s.ErrAccumulator 0 hdl]
  rw [recv_not_finished s hfin, processLines_eq, hA]
  obtain ⟨lim, fin, ls, re, acc, uT, uE⟩ := s
  simp_all

/-- One `Recv` call on an unfinished session headed by a decodable payload
line: yield the decoded value. -/
theorem recv_payload_ok_step {T : Type} [Inhabited T] (s : StreamReader T)
    (l : Str) (rest : List Str) (v : T) (hfin : s.isFinished = false)
    (hl : s.lines = l :: rest)
    (hpre : headerData.isPrefixOf (trimSpace l) = true)
    (hmark : errorPrefix.isPrefixOf (trimSpace l) = false)
    (hnd : trimPrefix headerData (trimSpace l) ≠ donePayload)
    (hok : s.Unmarshaler (trimPrefix headerData (trimSpace l)) = Except.ok v) :
    Recv s = ({ s with lines := rest }, v, none) := by
  have hA : processLinesLoop s s.lines s.ErrAccumulator 0 false
      = ((rest, s.ErrAccumulator, false), v, none) := by
    rw [hl, loop_payload_ok_step s l rest s.ErrAccumulator 0 v hpre hmark hnd hok]
  rw [recv_not_finished s hfin, processLines_eq, hA]
  obtain ⟨lim, fin, ls, re, acc, uT, uE⟩ := s
  simp_all

/-- Iterating calls composes additively. -/
theorem recvIter_add {T : Type} [Inhabited T] (m : Nat) :
    ∀ (n : Nat) (s : StreamReader T), recvIter (m + n) s = recvIter m (recvIter n s) := by
  intro n
  induction n with
  | zero => intro s; rfl
  | succ n ihn =>
    intro s
    show recvIter (m + n) (Recv s).1 = _
    rw [ihn (Recv s).1]
    rfl

/-- Pointwise extraction from a `Forall₂` relation on the left list. -/
theorem forall₂_exists_left {α β : Type} {R : α → β → Prop} :
    ∀ {l₁ : List α} {l₂ : List β}, List.Forall₂ R l₁ l₂ → ∀ a ∈ l₁, ∃ b, R a b := by
  intro l₁ l₂ h
  induction h with
  | nil => intro a ha; cases ha
  | cons hR _ ih =>
    intro a ha
    rcases List.mem_cons.mp ha with rfl | ha
    · exact ⟨_, hR⟩
    · exact ih a ha

/-- Over a compliant stream — decodable, marker-free payload lines then the
DONE line — successive calls yield each value in order, then `io.EOF` on
every further call, with the finished flag flipping exactly after the DONE
read (inline-detection variant). -/
theorem recv_compliant_core {T : Type} [Inhabited T] (u : Str → Except String T)
    (dl : Str) (hdl : trimSpace dl = headerData ++ donePayload) :
    ∀ (goods : List Str) (vals : List T),
    List.Forall₂ (fun l v =>
      headerData.isPrefixOf (trimSpace l) = true ∧
      errorPrefix.isPrefixOf (trimSpace l) = false ∧
      trimPrefix headerData (trimSpace l) ≠ donePayload ∧
      u (trimPrefix headerData (trimSpace l)) = Except.ok v) goods vals →
    ∀ (s : StreamReader T), s.isFinished = false → s.lines = goods ++ [dl] →
      s.Unmarshaler = u → ∀ k : Nat,
      (recvSeq (vals.length + (k + 1)) s =
        vals.map (fun v => (v, (none : Option RecvError))) ++
          List.replicate (k + 1) ((default : T), some RecvError.eof)) ∧
      (∀ j, j ≤ vals.length → (recvIter j s).isFinished = false) ∧
      (∀ j, vals.length + 1 ≤ j → (recvIter j s).isFinished = true) := by
  intro goods vals hgood
  induction hgood with
  | nil =>
    intro s hfin hl hu k
    have hr : Recv s = ({ s with lines := [], isFinished := true }, default,
        some RecvError.eof) :=
      recv_done_step s dl [] hfin (by simpa using hl) hdl
    have hfin' : ({ s with lines := ([] : List Str), isFinished := true } :
        StreamReader T).isFinished = true := rfl
    refine ⟨?_, ?_, ?_⟩
    · show (Recv s).2 :: recvSeq (0 + k) (Recv s).1 = _
      rw [hr, (recvIter_finished _ hfin' (0 + k)).2]
      simp [List.replicate_succ]
    · intro j hj
      have hj0 : j = 0 := Nat.le_zero.mp hj
      subst hj0
      exact hfin
    · intro j hj
      obtain ⟨m, rfl⟩ : ∃ m, j = m + 1 := ⟨j - 1, by omega⟩
      show (recvIter m (Recv s).1).isFinished = true
      rw [hr, (recvIter_finished _ hfin' m).1]
  | @cons g v gs vs hg htail ih =>
    intro s hfin hl hu k
    obtain ⟨hpre, hmark, hnd, hok⟩ := hg
    have hok' : s.Unmarshaler (trimPrefix headerData (trimSpace g)) = Except.ok v := by
      rw [hu]
      exact hok
    have hr : Recv s = ({ s with lines := gs ++ [dl] }, v, none) :=
      recv_payload_ok_step s g (gs ++ [dl]) v hfin (by simpa using hl) hpre hmark
        hnd hok'
    obtain ⟨ih1, ih2, ih3⟩ :=
      ih ({ s with lines := gs ++ [dl] }) hfin rfl hu k
    refine ⟨?_, ?_, ?_⟩
    · show (Recv s).2 :: recvSeq (vs.length + 1 + k) (Recv s).1 = _
      rw [hr]
      have hcnt : vs.length + 1 + k = vs.length + (k + 1) := by omega
      rw [hcnt, ih1]
      simp
    · intro j hj
      cases j with
      | zero => exact hfin
      | succ m =>
        show (recvIter m (Recv s).1).isFinished = false
        rw [hr]
        exact ih2 m (by simp only [List.length_cons] at hj; omega)
    · intro j hj
      cases j with
      | zero => exact absurd hj (by omega)
      | succ m =>
        show (recvIter m (Recv s).1).isFinished = true
        rw [hr]
        exact ih3 m (by simp only [List.length_cons] at hj; omega)

/-- C7 counterexample: a compliant stream (its single payload line decodes
successfully to `7`, the DONE line follows) on which the inline-detection
`Recv` does not yield the decoded value and never reaches the finished
state: the payload begins with the error marker, so it is diverted to the
error path. -/
theorem recv_roundtrip_counterexample :
    (sampleStream [errorPrefix ++ ['1', '\n'],
        headerData ++ donePayload ++ ['\n']] 5 false).isFinished = false ∧
    headerData.isPrefixOf (trimSpace (errorPrefix ++ ['1', '\n'])) = true ∧
    trimPrefix headerData (trimSpace (errorPrefix ++ ['1', '\n'])) ≠ donePayload ∧
    (sampleStream [errorPrefix ++ ['1', '\n'],
        headerData ++ donePayload ++ ['\n']] 5 false).Unmarshaler
      (trimPrefix headerData (trimSpace (errorPrefix ++ ['1', '\n']))) =
        Except.ok 7 ∧
    trimSpace (headerData ++ donePayload ++ ['\n']) = headerData ++ donePayload ∧
    recvSeq 2 (sampleStream [errorPrefix ++ ['1', '\n'],
        headerData ++ donePayload ++ ['\n']] 5 false) ≠
      [((7 : Nat), none), ((default : Nat), some RecvError.eof)] ∧
    (recvIter 2 (sampleStream [errorPrefix ++ ['1', '\n'],
        headerData ++ donePayload ++ ['\n']] 5 false)).isFinished = false :=
  ⟨rfl, by decide, by decide, rfl, by decide, by decide, rfl⟩

/-- C7 amended: over a compliant stream none of whose payload lines begins
with the error marker `data: \x7b"error":`, successive calls of either
variant yield each decoded value in order, then the clean end-of-stream
signal on every further call, and the finished flag flips exactly once, on
the call that reads the DONE line. -/
theorem recv_roundtrip_amended {T : Type} [Inhabited T] (s : StreamReader T)
    (goods : List Str) (vals : List T) (dl : Str) (hfin : s.isFinished = false)
    (hl : s.lines = goods ++ [dl])
    (hgood : List.Forall₂ (fun l v =>
      headerData.isPrefixOf (trimSpace l) = true ∧
      errorPrefix.isPrefixOf (trimSpace l) = false ∧
      trimPrefix headerData (trimSpace l) ≠ donePayload ∧
      s.Unmarshaler (trimPrefix headerData (trimSpace l)) = Except.ok v) goods vals)
    (hdl : trimSpace dl = headerData ++ donePayload) (k : Nat) :
    (recvSeq (vals.length + (k + 1)) s =
      vals.map (fun v => (v, (none : Option RecvError))) ++
        List.replicate (k + 1) ((default : T), some RecvError.eof)) ∧
    (recvSeqNoSniff (vals.length + (k + 1)) s =
      vals.map (fun v => (v, (none : Option RecvError))) ++
        List.replicate (k + 1) ((default : T), some RecvError.eof)) ∧
    (∀ j, j ≤ vals.length → (recvIter j s).isFinished = false) ∧
    (∀ j, vals.length + 1 ≤ j → (recvIter j s).isFinished = true) := by
  obtain ⟨h1, h2, h3⟩ :=
    recv_compliant_core s.Unmarshaler dl hdl goods vals hgood s hfin hl rfl k
  have hmarkers : ∀ l ∈ s.lines, errorPrefix.isPrefixOf (trimSpace l) = false := by
    intro l hlmem
    rw [hl] at hlmem
    rcases List.mem_append.mp hlmem with hmem | hmem
    · obtain ⟨w, hw⟩ := forall₂_exists_left hgood l hmem
      exact hw.2.1
    · have hldl : l = dl := by simpa using hmem
      subst hldl
      rw [hdl]
      exact errorPrefix_done_false
  have hseq := (recvIter_eq_noSniff (vals.length + (k + 1)) s hmarkers).1
  exact ⟨h1, by rw [← hseq]; exact h1, h2, h3⟩

theorem recv_roundtrip_amended_wit :
    (recvSeq 2 (sampleStream [headerData ++ ['x', '\n'],
        headerData ++ donePayload ++ ['\n']] 2 false) =
      [((7 : Nat), none), ((default : Nat), some RecvError.eof)]) ∧
    (recvSeqNoSniff 2 (sampleStream [headerData ++ ['x', '\n'],
        headerData ++ donePayload ++ ['\n']] 2 false) =
      [((7 : Nat), none), ((default : Nat), some RecvError.eof)]) ∧
    ((recvIter 1 (sampleStream [headerData ++ ['x', '\n'],
        headerData ++ donePayload ++ ['\n']] 2 false)).isFinished = false) ∧
    ((recvIter 2 (sampleStream [headerData ++ ['x', '\n'],
        headerData ++ donePayload ++ ['\n']] 2 false)).isFinished = true) := by
  obtain ⟨h1, h2, h3, h4⟩ :=
    recv_roundtrip_amended
      (sampleStream [headerData ++ ['x', '\n'],
        headerData ++ donePayload ++ ['\n']] 2 false)
      [headerData ++ ['x', '\n']] [7] (headerData ++ donePayload ++ ['\n'])
      rfl rfl
      (List.Forall₂.cons ⟨by decide, by decide, by decide, rfl⟩ List.Forall₂.nil)
      (by decide) 0
  exact ⟨h1, h2, h3 1 (by decide), h4 2 (by decide)⟩

end OpenAI
